import Mathlib

/-!
# morphos: output naming and the upload / format handlers (`main.go`)

A shallow embedding of `main.go`.  A Go `string` is modelled as the list of
its characters (`GoString`); the functions embedded here only ever compare a
position with the ASCII bytes `'.'` and `'/'`, which never occur inside a
multi-byte UTF-8 sequence, so scanning characters and scanning bytes agree.
The target platform is Unix: `filepath.Separator` is `'/'` and there are no
volume names.
-/

namespace Morphos

/-- A Go `string`. -/
abbrev GoString := List Char

/-- A Go `[]byte`. -/
abbrev Bytes := List Nat

/-! ## Standard-library helpers used by `main.go` (Unix build) -/

/-- The `os.IsPathSeparator` predicate: `c == '/'`. -/
def IsPathSeparator (c : Char) : Bool := c == '/'

/-- The `strings.HasSuffix` test. -/
def HasSuffix (s suffix : GoString) : Bool :=
  decide (suffix.length ≤ s.length) && (s.drop (s.length - suffix.length) == suffix)

/-- The `strings.TrimSuffix` function: `s` without the trailing `suffix`, or
`s` itself when it does not end in `suffix`. -/
def TrimSuffix (s suffix : GoString) : GoString :=
  if HasSuffix s suffix then s.take (s.length - suffix.length) else s

/-- The loop of `filepath.Ext`, run over the reversed path: `rev` is what is
left of the path read backwards, `acc` the part already passed (`path[i+1:]`).
Stops with `""` at a separator, with `path[i:]` at a dot. -/
def extLoop : GoString → GoString → GoString
  | [], _ => []
  | c :: rev, acc =>
    if IsPathSeparator c then []
    else if c = '.' then c :: acc
    else extLoop rev (c :: acc)

/-- The `filepath.Ext` function: the suffix beginning at the final dot of the
final path element; empty when that element has no dot. -/
def Ext (path : GoString) : GoString := extLoop path.reverse []

/-- The `filepath.Base` function: the last element of the path, after removing
trailing separators; `"."` for the empty path, `"/"` for a path of
separators only. -/
def Base (path : GoString) : GoString :=
  if path = [] then ['.']
  else
    -- strip trailing slashes
    let path := (path.reverse.dropWhile IsPathSeparator).reverse
    -- find the last element
    let path := (path.reverse.takeWhile (fun c => !IsPathSeparator c)).reverse
    -- if empty now, it had only slashes
    if path = [] then ['/'] else path

/-! ## `main.go`: output naming -/

/-- Source function `fileNameWithoutExtension`:
`strings.TrimSuffix(filepath.Base(fileName), filepath.Ext(fileName))`. -/
def fileNameWithoutExtension (fileName : GoString) : GoString :=
  TrimSuffix (Base fileName) (Ext fileName)

/-- Source function `filename`:
`fmt.Sprintf("%s.%s", fileNameWithoutExtension(filename), extension)`. -/
def filename (filename extension : GoString) : GoString :=
  fileNameWithoutExtension filename ++ ['.'] ++ extension

/-- The `FileName` method of a `multipart.Part`, through which `r.FormFile`
fills `fileHeader.Filename`: the `filename` parameter of the part, passed
through `filepath.Base` unless it is empty.  A part with an empty file name is
not a file, and `r.FormFile` fails on it. -/
def FileName (filename : GoString) : GoString :=
  if filename = [] then [] else Base filename

/-! ## The naming rule in the words of the specification -/

/-- The text of `name` before its last `'.'`; the whole of `name` when it has
no `'.'` ("strips exactly the final extension"). -/
def stripFinalExtension (name : GoString) : GoString :=
  if '.' ∈ name then (name.reverse.dropWhile (fun c => c != '.')).reverse.dropLast
  else name

/-- The `deriveOutputName` rule of the specification: the original name
without its final extension, then `'.'`, then the target subtype. -/
def deriveOutputName (originalFilename targetSubType : GoString) : GoString :=
  stripFinalExtension originalFilename ++ ['.'] ++ targetSubType

/-! ## `path/filepath`: `Clean` and `Join` (Unix build) -/

/-- The inner loop of the `..` case of `filepath.Clean`, entered after
`out.w--`: `for out.w > dotdot && !os.IsPathSeparator(out.index(out.w)) { out.w-- }`.
`buf` is the buffer as it was before backtracking, the argument and the result
are `out.w`. -/
def backtrackLoop (buf : GoString) (dotdot : Nat) : Nat → Nat
  | 0 => 0
  | w + 1 =>
    if w + 1 > dotdot && !IsPathSeparator (buf.getD (w + 1) '/') then backtrackLoop buf dotdot w
    else w + 1

/-- The main loop of `filepath.Clean`: `rest` is `path[r:]`, `out` the bytes
written so far (`out.w` is `out.length`).  Every round consumes at least one
byte of `rest`; `fuel` bounds the number of rounds. -/
def cleanLoop (rooted : Bool) : Nat → GoString → GoString → Nat → GoString
  | 0, _, out, _ => out
  | fuel + 1, rest, out, dotdot =>
    match rest with
    | [] => out
    | c :: t =>
      if IsPathSeparator c then
        -- empty path element
        cleanLoop rooted fuel t out dotdot
      else if c = '.' ∧ (t = [] ∨ t.head?.map IsPathSeparator = some true) then
        -- . element
        cleanLoop rooted fuel t out dotdot
      else if c = '.' ∧ t.head? = some '.' ∧
          (t.tail = [] ∨ t.tail.head?.map IsPathSeparator = some true) then
        -- .. element: remove to last separator
        if out.length > dotdot then
          -- can backtrack
          cleanLoop rooted fuel t.tail
            (out.take (backtrackLoop out dotdot (out.length - 1))) dotdot
        else if !rooted then
          -- cannot backtrack, but not rooted, so append .. element
          let out := (if out.length > 0 then out ++ ['/'] else out) ++ ['.', '.']
          cleanLoop rooted fuel t.tail out out.length
        else
          cleanLoop rooted fuel t.tail out dotdot
      else
        -- real path element: add slash if needed, copy element
        let out :=
          if rooted && out.length != 1 || !rooted && out.length != 0 then out ++ ['/'] else out
        cleanLoop rooted fuel (rest.dropWhile (fun c => !IsPathSeparator c))
          (out ++ rest.takeWhile (fun c => !IsPathSeparator c)) dotdot

/-- The `filepath.Clean` function. -/
def Clean (path : GoString) : GoString :=
  match path with
  | [] => ['.']
  | c :: t =>
    let rooted := IsPathSeparator c
    let out :=
      if rooted then cleanLoop rooted path.length t ['/'] 1
      else cleanLoop rooted path.length path [] 0
    -- turn empty string into "."
    if out.length = 0 then ['.'] else out

/-- The `filepath.Join` function: the elements from the first non-empty one on,
joined by the separator and cleaned; `""` when every element is empty. -/
def Join (elem : List GoString) : GoString :=
  match elem.dropWhile (fun e => e == []) with
  | [] => []
  | es => Clean (['/'].intercalate es)

/-! ## `main.go`: the HTTP handlers

The handlers call into `net/http`, `mimetype`, `html/template`, `os` and the
package `pkg/files`, none of which is part of `main.go`.  Their results are
parameters of the model (`Request`, `Env`); the handlers themselves are
embedded statement by statement.  Logging (`log.Printf`) and the deferred
`Close` calls have no effect on anything modelled and are left out. -/

/-- A Go `error` value. -/
abbrev Error := String

/-- The constant `uploadFileFormField`. -/
def uploadFileFormField : GoString := "uploadFile".toList

/-- The constant `http.StatusBadRequest`. -/
def StatusBadRequest : Nat := 400

/-- The constant `http.StatusInternalServerError`. -/
def StatusInternalServerError : Nat := 500

/-- The struct `ConvertedFile`. -/
structure ConvertedFile where
  Filename : GoString
  FileType : GoString
  deriving DecidableEq, Repr

/-- What is observable of an `http.ResponseWriter`: the status code sent, if
any, and the body written so far. -/
structure ResponseWriter where
  status : Option Nat
  body : GoString
  deriving DecidableEq, Repr

/-- Method `WriteHeader`: sends the status code, unless one was sent already. -/
def ResponseWriter.WriteHeader (w : ResponseWriter) (statusCode : Nat) : ResponseWriter :=
  if w.status.isSome then w else { w with status := some statusCode }

/-- Method `Write`: sends status 200 when no status was sent yet, then appends
to the body. -/
def ResponseWriter.Write (w : ResponseWriter) (b : GoString) : ResponseWriter :=
  { status := some (w.status.getD 200), body := w.body ++ b }

/-- Source function `renderError`: `w.WriteHeader(statusCode)` then
`w.Write([]byte(message))`. -/
def renderError (w : ResponseWriter) (message : GoString) (statusCode : Nat) : ResponseWriter :=
  (w.WriteHeader statusCode).Write message

/-- A `multipart.FileHeader`. -/
structure FileHeader where
  Filename : GoString

/-- A `multipart.File`, given by what `io.ReadAll` returns on it. -/
structure File where
  ReadAll : Except Error Bytes

/-- An `http.Request`, given by the results of the two accessors used. -/
structure Request where
  FormFile : GoString → Except Error (File × FileHeader)
  FormValue : GoString → GoString

/-- The data handed to a template. -/
inductive TemplateData
  | convertedFile (c : ConvertedFile)
  | formats (f : List (GoString × GoString))

/-- The collaborators of the handlers.  `Factory` and `Converter` are the types
behind the interfaces returned by `files.BuildFactory` and by `NewFile`. -/
structure Env (Factory Converter : Type) where
  /-- the environment variable `TMP_DIR` -/
  TMP_DIR : GoString
  /-- the call `mimetype.Detect(b).String()` -/
  Detect : Bytes → GoString
  /-- the function `files.TypeAndSupType` -/
  TypeAndSupType : GoString → Except Error (GoString × GoString)
  /-- the function `files.BuildFactory` -/
  BuildFactory : GoString → GoString → Except Error Factory
  /-- the method `NewFile` of a factory -/
  NewFile : Factory → GoString → Except Error Converter
  /-- the map `files.SupportedFileTypes()`, `""` for a missing key -/
  SupportedFileTypes : GoString → GoString
  /-- the call `cases.Title(language.English).String` -/
  Title : GoString → GoString
  /-- the method `ConvertTo` of a converter -/
  ConvertTo : Converter → GoString → GoString → Bytes → Except Error Bytes
  /-- the method `SupportedFormats` of a converter, a mapping from subtype to
  display label (§4.3 of the specification) -/
  SupportedFormats : Converter → List (GoString × GoString)
  /-- the function `os.Create` -/
  Create : GoString → Except Error Unit
  /-- the method `Write` of the created file: bytes written, error -/
  Write : GoString → Bytes → Nat × Option Error
  /-- the function `template.ParseFS` on the embedded templates -/
  ParseFS : List GoString → Except Error Unit
  /-- the method `ExecuteTemplate`: output written to the response, error -/
  ExecuteTemplate : List GoString → GoString → TemplateData → GoString × Option Error

/-- Source function `init`: `uploadPath` is `TMP_DIR`, or `"/tmp"` when that is
empty. -/
def uploadPath {Factory Converter : Type} (env : Env Factory Converter) : GoString :=
  if env.TMP_DIR = [] then "/tmp".toList else env.TMP_DIR

/-- The call sites of a handler that reach a collaborator, and the call of
`filename`.  `TypeAndSupTypeConverted` is the second classification, of the
converted bytes. -/
inductive Site
  | FormFile | ReadAll | TypeAndSupType | BuildFactory | NewFile | ConvertTo | filename
  | Create | Write | ParseFS | TypeAndSupTypeConverted | SupportedFormats | ExecuteTemplate
  deriving DecidableEq, Repr

/-- One executed call: where, with which string arguments, and whether it
returned without error. -/
structure Call where
  site : Site
  args : List GoString
  ok : Bool
  deriving DecidableEq, Repr

/-- What a handler run leaves behind: the response, the files it created in
the file system (path and content), the calls it made in order, and whether it
ended in a run-time panic. -/
structure State where
  w : ResponseWriter
  files : List (GoString × Bytes)
  trace : List Call
  panicked : Bool
  deriving DecidableEq, Repr

/-- The state at the start of a handler: nothing sent, nothing created. -/
def State.init : State := ⟨⟨none, []⟩, [], [], false⟩

/-- Records a call. -/
def State.call (s : State) (site : Site) (args : List GoString) (ok : Bool) : State :=
  { s with trace := s.trace ++ [⟨site, args, ok⟩] }

/-- Runs `renderError` on the response of the state. -/
def State.renderError (s : State) (message : GoString) (statusCode : Nat) : State :=
  { s with w := Morphos.renderError s.w message statusCode }

/-- Source function `handleUploadFile`. -/
def handleUploadFile {Factory Converter : Type} (env : Env Factory Converter) (r : Request) :
    State :=
  let s := State.init
  -- parse and validate file and post parameters.
  match r.FormFile uploadFileFormField with
  | .error _ =>
    (s.call .FormFile [uploadFileFormField] false).renderError "INVALID_FILE".toList
      StatusBadRequest
  | .ok (file, fileHeader) =>
  let s := s.call .FormFile [uploadFileFormField] true
  match file.ReadAll with
  | .error _ =>
    (s.call .ReadAll [] false).renderError "INVALID_FILE".toList StatusBadRequest
  | .ok fileBytes =>
  let s := s.call .ReadAll [] true
  let targetFileSubType := r.FormValue "input_format".toList
  let detectedFileType := env.Detect fileBytes
  match env.TypeAndSupType detectedFileType with
  | .error _ =>
    (s.call .TypeAndSupType [detectedFileType] false).renderError "INVALID_FILE".toList
      StatusBadRequest
  | .ok (fileType, subType) =>
  let s := s.call .TypeAndSupType [detectedFileType] true
  match env.BuildFactory fileType fileHeader.Filename with
  | .error _ =>
    (s.call .BuildFactory [fileType, fileHeader.Filename] false).renderError
      "INVALID_FILE".toList StatusBadRequest
  | .ok fileFactory =>
  let s := s.call .BuildFactory [fileType, fileHeader.Filename] true
  match env.NewFile fileFactory subType with
  | .error _ =>
    (s.call .NewFile [subType] false).renderError "INVALID_FILE".toList StatusBadRequest
  | .ok f =>
  let s := s.call .NewFile [subType] true
  let targetFileType := env.SupportedFileTypes targetFileSubType
  match env.ConvertTo f (env.Title targetFileType) targetFileSubType fileBytes with
  | .error _ =>
    (s.call .ConvertTo [env.Title targetFileType, targetFileSubType] false).renderError
      "INTERNAL_ERROR".toList StatusInternalServerError
  | .ok convertedFile =>
  let s := s.call .ConvertTo [env.Title targetFileType, targetFileSubType] true
  let targetFileSubType :=
    if fileType = "application".toList then "zip".toList else targetFileSubType
  let convertedFileName := filename fileHeader.Filename targetFileSubType
  let s := s.call .filename [fileHeader.Filename, targetFileSubType] true
  let convertedFilePath := Join [uploadPath env, convertedFileName]
  match env.Create convertedFilePath with
  | .error _ =>
    (s.call .Create [convertedFilePath] false).renderError "CANT_WRITE_FILE".toList
      StatusInternalServerError
  | .ok _ =>
  let s := { s.call .Create [convertedFilePath] true with
    files := [(convertedFilePath, [])] }
  match env.Write convertedFilePath convertedFile with
  | (n, some _) =>
    ({ s.call .Write [convertedFilePath] false with
        files := [(convertedFilePath, convertedFile.take n)] }).renderError
      "CANT_WRITE_FILE".toList StatusInternalServerError
  | (n, none) =>
  let s := { s.call .Write [convertedFilePath] true with
    files := [(convertedFilePath, convertedFile.take n)] }
  let tmpls := ["templates/partials/card_file.tmpl".toList,
    "templates/partials/modal.tmpl".toList]
  match env.ParseFS tmpls with
  | .error _ =>
    (s.call .ParseFS tmpls false).renderError "INTERNAL_ERROR".toList
      StatusInternalServerError
  | .ok _ =>
  let s := s.call .ParseFS tmpls true
  let convertedFileMimeType := env.Detect convertedFile
  match env.TypeAndSupType convertedFileMimeType with
  | .error _ =>
    (s.call .TypeAndSupTypeConverted [convertedFileMimeType] false).renderError
      "INTERNAL_ERROR".toList StatusInternalServerError
  | .ok (convertedFileType, _) =>
  let s := s.call .TypeAndSupTypeConverted [convertedFileMimeType] true
  match env.ExecuteTemplate tmpls "content".toList
      (.convertedFile ⟨convertedFileName, convertedFileType⟩) with
  | (output, some _) =>
    ({ s.call .ExecuteTemplate ["content".toList, convertedFileName, convertedFileType] false
        with w := if output = [] then s.w else s.w.Write output }).renderError
      "INTERNAL_ERROR".toList StatusInternalServerError
  | (output, none) =>
    { s.call .ExecuteTemplate ["content".toList, convertedFileName, convertedFileType] true
      with w := s.w.Write output }

/-- Source function `handleFileFormat`.  The error of `template.ParseFS` is
overwritten unread; when parsing failed the template is nil and the call of
`ExecuteTemplate` on it panics, after its argument `f.SupportedFormats()` was
evaluated. -/
def handleFileFormat {Factory Converter : Type} (env : Env Factory Converter) (r : Request) :
    State :=
  let s := State.init
  match r.FormFile uploadFileFormField with
  | .error _ =>
    (s.call .FormFile [uploadFileFormField] false).renderError "INVALID_FILE".toList
      StatusBadRequest
  | .ok (file, _) =>
  let s := s.call .FormFile [uploadFileFormField] true
  match file.ReadAll with
  | .error _ =>
    (s.call .ReadAll [] false).renderError "INVALID_FILE".toList StatusBadRequest
  | .ok fileBytes =>
  let s := s.call .ReadAll [] true
  let detectedFileType := env.Detect fileBytes
  let templates := ["templates/partials/form.tmpl".toList]
  match env.TypeAndSupType detectedFileType with
  | .error _ =>
    (s.call .TypeAndSupType [detectedFileType] false).renderError "INVALID_FILE".toList
      StatusBadRequest
  | .ok (fileType, subType) =>
  let s := s.call .TypeAndSupType [detectedFileType] true
  match env.BuildFactory fileType [] with
  | .error _ =>
    (s.call .BuildFactory [fileType, []] false).renderError "INVALID_FILE".toList
      StatusBadRequest
  | .ok fileFactory =>
  let s := s.call .BuildFactory [fileType, []] true
  match env.NewFile fileFactory subType with
  | .error _ =>
    (s.call .NewFile [subType] false).renderError "INTERNAL_ERROR".toList
      StatusInternalServerError
  | .ok f =>
  let s := s.call .NewFile [subType] true
  match env.ParseFS templates with
  | .error _ =>
    { (s.call .ParseFS templates false).call .SupportedFormats [] true with panicked := true }
  | .ok _ =>
  let s := (s.call .ParseFS templates true).call .SupportedFormats [] true
  match env.ExecuteTemplate templates "format-elements".toList
      (.formats (env.SupportedFormats f)) with
  | (output, some _) =>
    ({ s.call .ExecuteTemplate ["format-elements".toList] false
        with w := if output = [] then s.w else s.w.Write output }).renderError
      "INTERNAL_ERROR".toList StatusInternalServerError
  | (output, none) =>
    { s.call .ExecuteTemplate ["format-elements".toList] true with w := s.w.Write output }

/-! ## Vocabulary for the statements about paths -/

/-- An ordinary path element: not empty, free of separators, neither `.` nor `..`. -/
def IsElement (name : GoString) : Prop :=
  name ≠ [] ∧ (∀ c ∈ name, c ≠ '/') ∧ name ≠ ['.'] ∧ name ≠ ['.', '.']

/-- What the default case of the loop of `Clean` makes of the buffer `out` when
it copies the element `name`: a separator if needed, then the element. -/
def appendElement (rooted : Bool) (out name : GoString) : GoString :=
  (if rooted && out.length != 1 || !rooted && out.length != 0 then out ++ ['/'] else out) ++ name

/-- The entry `name` lies directly in the directory `dir`: joined to `dir` it
is the cleaned `dir`, a separator, and `name` (without a second separator
after the root, and without the leading `.` of the current directory). -/
def InDirectory (dir name : GoString) : Prop :=
  (Clean dir = ['.'] ∧ Join [dir, name] = name) ∨
  (Clean dir = ['/'] ∧ Join [dir, name] = '/' :: name) ∨
  Join [dir, name] = Clean dir ++ '/' :: name

/-! ## Vocabulary for the statements about the handlers -/

/-- The calls of a complete run of `handleUploadFile`, in order. -/
def uploadPipeline : List Site :=
  [.FormFile, .ReadAll, .TypeAndSupType, .BuildFactory, .NewFile, .ConvertTo, .filename,
    .Create, .Write, .ParseFS, .TypeAndSupTypeConverted, .ExecuteTemplate]

/-- Modelled from the spec: the body of `ConvertTo` belongs to the package
`pkg/files`, which is not part of `main.go`.  §4.3 of the specification:
`convertTo` "fails with `ConversionFailed` when the underlying codec rejects
the input or when `targetSubType` is not among this converter's legal
targets", the legal targets being the subtypes listed by `supportedFormats()`. -/
def ConvertToRejectsIllegalTargets {Factory Converter : Type} (env : Env Factory Converter) :
    Prop :=
  ∀ (f : Converter) (targetTypeLabel targetSubType : GoString) (sourceBytes : Bytes),
    targetSubType ∉ (env.SupportedFormats f).map Prod.fst →
    ∃ e, env.ConvertTo f targetTypeLabel targetSubType sourceBytes = .error e

/-- The run of `handleUploadFile` names its output `name`: `os.Create` is
called on `name` joined to the upload directory, no file is created under
another path, and the name handed to the template is `name`. -/
def OutputNamed {Factory Converter : Type} (env : Env Factory Converter) (r : Request)
    (name : GoString) : Prop :=
  (∃ ok, ⟨.Create, [Join [uploadPath env, name]], ok⟩ ∈ (handleUploadFile env r).trace) ∧
  (∀ p ∈ (handleUploadFile env r).files, p.1 = Join [uploadPath env, name]) ∧
  (∀ args ok, ⟨.ExecuteTemplate, args, ok⟩ ∈ (handleUploadFile env r).trace →
    args.get? 1 = some name)

/-- An upload of three bytes named `photo.jpg`, target `png`. -/
def photoRequest : Request :=
  { FormFile := fun _ => .ok (⟨.ok [255, 216, 255]⟩, ⟨"photo.jpg".toList⟩)
    FormValue := fun _ => "png".toList }

/-- Collaborators that know one format: the bytes of `photoRequest` are a
JPEG image, every other content is `application/octet-stream`, which
`TypeAndSupType` rejects; the conversion returns two bytes; the file system
and the templates work. -/
def photoEnv : Env Unit Unit :=
  { TMP_DIR := []
    Detect := fun b =>
      if b = [255, 216, 255] then "image/jpeg".toList else "application/octet-stream".toList
    TypeAndSupType := fun m =>
      if m = "image/jpeg".toList then .ok ("image".toList, "jpeg".toList)
      else .error "file format not supported"
    BuildFactory := fun _ _ => .ok ()
    NewFile := fun _ _ => .ok ()
    SupportedFileTypes := fun _ => "image".toList
    Title := fun _ => "Image".toList
    ConvertTo := fun _ _ _ _ => .ok [7, 7]
    SupportedFormats := fun _ => [("png".toList, "PNG".toList)]
    Create := fun _ => .ok ()
    Write := fun _ b => (b.length, none)
    ParseFS := fun _ => .ok ()
    ExecuteTemplate := fun _ _ _ => ("<div>".toList, none) }

/-- The collaborators of `photoEnv`, with a converter that accepts the target
`png` only, as its `SupportedFormats` says. -/
def pngOnlyEnv : Env Unit Unit :=
  { photoEnv with
    ConvertTo := fun _ _ sub _ =>
      if sub = "png".toList then .ok [7, 7] else .error "file sub-type not supported" }

/-- The upload of `photoRequest`, with target `gif`. -/
def gifRequest : Request :=
  { photoRequest with FormValue := fun _ => "gif".toList }

/-! ## Lemmas on the path helpers -/

theorem isPathSeparator_iff (c : Char) : IsPathSeparator c = true ↔ c = '/' := by
  simp [IsPathSeparator]

theorem hasSuffix_append (s suffix : GoString) : HasSuffix (s ++ suffix) suffix = true := by
  simp [HasSuffix]

theorem trimSuffix_append (s suffix : GoString) : TrimSuffix (s ++ suffix) suffix = s := by
  simp [TrimSuffix, hasSuffix_append]

theorem trimSuffix_nil (s : GoString) : TrimSuffix s [] = s := by
  simpa using trimSuffix_append s []

/-- The result of `TrimSuffix` is a prefix of its first argument. -/
theorem trimSuffix_isPrefix (s suffix : GoString) : TrimSuffix s suffix <+: s := by
  unfold TrimSuffix
  split
  · exact List.take_prefix _ _
  · exact List.prefix_refl _

/-- The loop of `Ext` walks over a run without dot and separator. -/
theorem extLoop_append (e rest acc : GoString)
    (he : ∀ c ∈ e, c ≠ '.' ∧ c ≠ '/') :
    extLoop (e.reverse ++ rest) acc = extLoop rest (e ++ acc) := by
  induction e using List.reverseRecOn generalizing acc with
  | nil => simp
  | append_singleton l a ih =>
    have ha : a ≠ '.' ∧ a ≠ '/' := he a (by simp)
    have hl : ∀ c ∈ l, c ≠ '.' ∧ c ≠ '/' := fun c hc => he c (by simp [hc])
    simp only [List.reverse_append, List.reverse_cons, List.reverse_nil, List.nil_append,
      List.singleton_append, List.cons_append, List.append_assoc]
    rw [extLoop]
    simp only [IsPathSeparator, beq_iff_eq, ha.1, ha.2, if_false]
    exact ih (a :: acc) hl

theorem ext_append_dot (a e : GoString) (he : ∀ c ∈ e, c ≠ '.' ∧ c ≠ '/') :
    Ext (a ++ '.' :: e) = '.' :: e := by
  unfold Ext
  rw [List.reverse_append, List.reverse_cons, List.append_assoc, extLoop_append _ _ _ he]
  simp [extLoop, IsPathSeparator]

theorem ext_of_no_dot (e : GoString) (he : ∀ c ∈ e, c ≠ '.' ∧ c ≠ '/') : Ext e = [] := by
  unfold Ext
  have := extLoop_append e [] [] he
  simp only [List.append_nil] at this
  rw [this, extLoop]

/-- A path that ends in a separator has no extension. -/
theorem ext_append_sep (a : GoString) : Ext (a ++ ['/']) = [] := by
  simp [Ext, extLoop, IsPathSeparator]

theorem base_of_no_sep (path : GoString) (hne : path ≠ []) (h : ∀ c ∈ path, c ≠ '/') :
    Base path = path := by
  have h1 : path.reverse.dropWhile IsPathSeparator = path.reverse := by
    cases hr : path.reverse with
    | nil => rfl
    | cons c t =>
      have hc : c ∈ path := by
        have : c ∈ path.reverse := by rw [hr]; simp
        simpa using this
      rw [List.dropWhile_cons_of_neg]
      simpa [isPathSeparator_iff] using h c hc
  have h2 : path.reverse.takeWhile (fun c => !IsPathSeparator c) = path.reverse := by
    rw [List.takeWhile_eq_self_iff]
    intro c hc
    have := h c (by simpa using hc)
    simp [IsPathSeparator, this]
  simp [Base, hne, h1, h2]

/-- Every name with a dot splits at its last dot. -/
theorem exists_last_dot (name : GoString) (h : '.' ∈ name) :
    ∃ a e, name = a ++ '.' :: e ∧ '.' ∉ e := by
  have hr : '.' ∈ name.reverse := by simpa using h
  obtain ⟨as, bs, hab, hna⟩ := List.eq_append_cons_of_mem hr
  refine ⟨bs.reverse, as.reverse, ?_, by simpa using hna⟩
  have := congrArg List.reverse hab
  simpa using this

theorem stripFinalExtension_append_dot (a e : GoString) (he : '.' ∉ e) :
    stripFinalExtension (a ++ '.' :: e) = a := by
  have h1 : (e.reverse ++ '.' :: a.reverse).dropWhile (fun c => c != '.') = '.' :: a.reverse := by
    rw [List.dropWhile_append_of_pos]
    · simp
    · intro c hc
      have : c ≠ '.' := fun hh => he (by simpa [hh] using hc)
      simpa using this
  simp [stripFinalExtension, h1]

theorem dropWhile_sep_of_head (l : GoString) (h : ∀ c ∈ l.head?, c ≠ '/') :
    l.dropWhile IsPathSeparator = l := by
  cases l with
  | nil => rfl
  | cons c t =>
    rw [List.dropWhile_cons_of_neg]
    simpa [isPathSeparator_iff] using h c (by simp)

/-- The last element of a path that does not end in a separator. -/
theorem base_append_sep_element (q x : GoString) (hne : x ≠ []) (hx : ∀ c ∈ x, c ≠ '/') :
    Base (q ++ '/' :: x) = x := by
  have hrev : (q ++ '/' :: x).reverse = x.reverse ++ '/' :: q.reverse := by simp
  have h1 : (x.reverse ++ '/' :: q.reverse).dropWhile IsPathSeparator
      = x.reverse ++ '/' :: q.reverse := by
    apply dropWhile_sep_of_head
    intro c hc
    cases hr : x.reverse with
    | nil => simp at hr; exact absurd hr hne
    | cons d t =>
      rw [hr] at hc
      simp at hc
      subst hc
      exact hx _ (by
        have : d ∈ x.reverse := by rw [hr]; simp
        simpa using this)
  have h2 : (x.reverse ++ '/' :: q.reverse).takeWhile (fun c => !IsPathSeparator c)
      = x.reverse := by
    rw [List.takeWhile_append_of_pos]
    · simp [IsPathSeparator]
    · intro c hc
      have := hx c (by simpa using hc)
      simp [IsPathSeparator, this]
  unfold Base
  rw [if_neg (by simp)]
  simp only [hrev, h1, List.reverse_reverse, h2]
  simp [hne]

/-- A non-empty path of separators only has base `"/"`. -/
theorem base_all_sep (path : GoString) (hne : path ≠ []) (h : ∀ c ∈ path, c = '/') :
    Base path = ['/'] := by
  have h1 : path.reverse.dropWhile IsPathSeparator = [] := by
    rw [List.dropWhile_eq_nil_iff]
    intro c hc
    simpa [isPathSeparator_iff] using h c (by simpa using hc)
  simp [Base, hne, h1]

/-- Apart from the all-separator case, `Base` is free of separators. -/
theorem base_no_sep (path : GoString) (h : ¬ (path ≠ [] ∧ ∀ c ∈ path, c = '/')) :
    '/' ∉ Base path := by
  by_cases hne : path = []
  · simp [Base, hne]
  · have hex : ¬ ∀ c ∈ path, c = '/' := fun hall => h ⟨hne, hall⟩
    have hd : path.reverse.dropWhile IsPathSeparator ≠ [] := by
      intro hnil
      rw [List.dropWhile_eq_nil_iff] at hnil
      exact hex (fun c hc => by simpa [isPathSeparator_iff] using hnil c (by simpa using hc))
    have hhead := List.head_dropWhile_not IsPathSeparator path.reverse hd
    have ht : (path.reverse.dropWhile IsPathSeparator).takeWhile (fun c => !IsPathSeparator c)
        ≠ [] := by
      cases hdl : path.reverse.dropWhile IsPathSeparator with
      | nil => exact absurd hdl hd
      | cons c t =>
        simp only [hdl, List.head_cons] at hhead
        simp [List.takeWhile_cons, hhead]
    unfold Base
    rw [if_neg hne]
    simp only [List.reverse_reverse, List.reverse_eq_nil_iff, if_neg ht, List.mem_reverse]
    intro hmem
    have := List.mem_takeWhile_imp hmem
    simp [IsPathSeparator] at this

/-- The non-empty paths of separators end in a separator. -/
theorem all_sep_eq_append (path : GoString) (hne : path ≠ []) (h : ∀ c ∈ path, c = '/') :
    ∃ q, path = q ++ ['/'] := by
  refine ⟨path.dropLast, ?_⟩
  have h1 := List.dropLast_append_getLast hne
  have h2 : path.getLast hne = '/' := h _ (List.getLast_mem hne)
  rw [h2] at h1
  exact h1.symm

/-! ## Lemmas on `Clean` and `Join` -/

theorem backtrackLoop_bounds (buf : GoString) (dotdot w : Nat) (h : dotdot ≤ w) :
    dotdot ≤ backtrackLoop buf dotdot w ∧ backtrackLoop buf dotdot w ≤ w := by
  induction w with
  | zero => simpa [backtrackLoop] using h
  | succ w ih =>
    unfold backtrackLoop
    split
    · rename_i hc
      simp only [Bool.and_eq_true, decide_eq_true_eq] at hc
      have := ih (by omega)
      omega
    · omega

theorem takeWhile_append_sep (l n : GoString) :
    (l ++ '/' :: n).takeWhile (fun c => !IsPathSeparator c)
      = l.takeWhile (fun c => !IsPathSeparator c) := by
  induction l with
  | nil => simp [IsPathSeparator]
  | cons a l ih => simp only [List.cons_append, List.takeWhile_cons, ih]

theorem dropWhile_append_sep (l n : GoString) :
    (l ++ '/' :: n).dropWhile (fun c => !IsPathSeparator c)
      = l.dropWhile (fun c => !IsPathSeparator c) ++ '/' :: n := by
  induction l with
  | nil => simp [IsPathSeparator]
  | cons a l ih =>
    simp only [List.cons_append, List.dropWhile_cons, ih]
    split <;> simp

theorem head_sep_append (t n : GoString) :
    ((t ++ '/' :: n) = [] ∨ (t ++ '/' :: n).head?.map IsPathSeparator = some true)
      ↔ (t = [] ∨ t.head?.map IsPathSeparator = some true) := by
  cases t <;> simp [IsPathSeparator]

/-- Once the fuel covers the rest of the path, more fuel changes nothing. -/
theorem cleanLoop_fuel (rooted : Bool) (fuel : Nat) :
    ∀ (rest out : GoString) (dotdot : Nat), rest.length ≤ fuel →
      cleanLoop rooted fuel rest out dotdot = cleanLoop rooted rest.length rest out dotdot := by
  induction fuel using Nat.strong_induction_on with
  | _ fuel ih =>
    intro rest out dotdot hlen
    cases fuel with
    | zero =>
      have : rest = [] := List.length_eq_zero.1 (by omega)
      subst this
      rfl
    | succ f =>
      cases rest with
      | nil => simp [cleanLoop]
      | cons c t =>
        simp only [List.length_cons] at hlen
        have key : ∀ (X o : GoString) (d : Nat), X.length ≤ t.length →
            cleanLoop rooted f X o d = cleanLoop rooted t.length X o d := fun X o d hX =>
          (ih f (by omega) X o d (by omega)).trans (ih t.length (by omega) X o d hX).symm
        have htail : t.tail.length ≤ t.length := by simp
        simp only [List.length_cons, cleanLoop]
        have hdrop : ¬ IsPathSeparator c = true →
            ((c :: t).dropWhile (fun c => !IsPathSeparator c)).length ≤ t.length := by
          intro h1
          rw [List.dropWhile_cons_of_pos (by simpa using h1)]
          exact (List.dropWhile_sublist _).length_le
        split_ifs with h1
        all_goals first
          | exact key _ _ _ le_rfl
          | exact key _ _ _ htail
          | exact key _ _ _ (hdrop h1)

theorem dotdot_cond_append (t n : GoString) :
    ((t ++ '/' :: n).head? = some '.' ∧ ((t ++ '/' :: n).tail = [] ∨
        (t ++ '/' :: n).tail.head?.map IsPathSeparator = some true))
      ↔ (t.head? = some '.' ∧ (t.tail = [] ∨ t.tail.head?.map IsPathSeparator = some true)) := by
  cases t with
  | nil => simp
  | cons d t => simpa using fun _ => head_sep_append t n

theorem cleanLoop_element (rooted : Bool) (name : GoString) (h : IsElement name)
    (fuel : Nat) (out : GoString) (dotdot : Nat) (hf : name.length ≤ fuel) :
    cleanLoop rooted fuel name out dotdot = appendElement rooted out name := by
  obtain ⟨hne, hsep, hdot, hdd⟩ := h
  cases name with
  | nil => exact absurd rfl hne
  | cons c t =>
    cases fuel with
    | zero => simp at hf
    | succ f =>
      have hc : IsPathSeparator c = false := by
        simpa [IsPathSeparator] using hsep c (by simp)
      have htw : (c :: t).takeWhile (fun c => !IsPathSeparator c) = c :: t := by
        rw [List.takeWhile_eq_self_iff]
        intro d hd
        simpa [IsPathSeparator] using hsep d hd
      have hdw : (c :: t).dropWhile (fun c => !IsPathSeparator c) = [] := by
        rw [List.dropWhile_eq_nil_iff]
        intro d hd
        simpa [IsPathSeparator] using hsep d hd
      have h2 : ¬ (c = '.' ∧ (t = [] ∨ t.head?.map IsPathSeparator = some true)) := by
        rintro ⟨rfl, ht | ht⟩
        · exact hdot (by rw [ht])
        · cases t with
          | nil => simp at ht
          | cons d t =>
            have := hsep d (by simp)
            simp [IsPathSeparator, this] at ht
      have h3 : ¬ (c = '.' ∧ t.head? = some '.' ∧
          (t.tail = [] ∨ t.tail.head?.map IsPathSeparator = some true)) := by
        rintro ⟨rfl, ht1, ht2⟩
        cases t with
        | nil => simp at ht1
        | cons d t =>
          simp at ht1
          subst ht1
          rcases ht2 with ht | ht
          · simp at ht
            exact hdd (by rw [ht])
          · cases t with
            | nil => simp at ht
            | cons e t =>
              have := hsep e (by simp)
              simp [IsPathSeparator, this] at ht
      rw [cleanLoop]
      simp only [hc, h2, h3, if_false, htw, hdw, Bool.false_eq_true]
      cases f <;> simp [cleanLoop, appendElement]

/-- Reading `rest`, a separator and then an ordinary element gives what
reading `rest` alone gives, with the element appended. -/
theorem cleanLoop_append_element (rooted : Bool) (name : GoString) (h : IsElement name)
    (fuel : Nat) :
    ∀ (rest out : GoString) (dotdot : Nat), (rest ++ '/' :: name).length ≤ fuel →
      cleanLoop rooted fuel (rest ++ '/' :: name) out dotdot
        = appendElement rooted (cleanLoop rooted rest.length rest out dotdot) name := by
  induction fuel with
  | zero => intro rest out dotdot hf; simp at hf
  | succ f ih =>
    intro rest out dotdot hf
    cases rest with
    | nil =>
      simp only [List.nil_append, List.length_cons] at hf
      simp only [List.length_nil, cleanLoop, IsPathSeparator, beq_self_eq_true, if_true]
      exact cleanLoop_element rooted name h f out dotdot (by omega)
    | cons c t =>
      simp only [List.cons_append, List.length_cons, List.length_append] at hf
      have step : ∀ (X o : GoString) (d : Nat), X.length ≤ t.length →
          cleanLoop rooted f (X ++ '/' :: name) o d
            = appendElement rooted (cleanLoop rooted t.length X o d) name := by
        intro X o d hX
        rw [ih X o d (by simp only [List.length_append, List.length_cons]; omega),
          cleanLoop_fuel rooted t.length X o d hX]
      simp only [List.cons_append, List.length_cons]
      rw [cleanLoop, cleanLoop]
      simp only [head_sep_append, dotdot_cond_append]
      have htl : t.head? = some '.' → (t ++ '/' :: name).tail = t.tail ++ '/' :: name := by
        intro ht
        cases t with
        | nil => simp at ht
        | cons d t => rfl
      have hlen : t.tail.length ≤ t.length := by simp
      have hX : ¬ IsPathSeparator c = true →
          ((c :: t).dropWhile (fun c => !IsPathSeparator c)).length ≤ t.length := by
        intro h1
        rw [List.dropWhile_cons_of_pos (by simpa using h1)]
        exact (List.dropWhile_sublist _).length_le
      have e1 := takeWhile_append_sep (c :: t) name
      have e2 := dropWhile_append_sep (c :: t) name
      simp only [List.cons_append] at e1 e2
      split_ifs with h1 h2 h3
      · exact step t out dotdot le_rfl
      · exact step t out dotdot le_rfl
      · rw [htl h3.2.1]; exact step t.tail _ _ hlen
      · rw [htl h3.2.1]; exact step t.tail _ _ hlen
      · rw [htl h3.2.1]; exact step t.tail _ _ hlen
      · rw [htl h3.2.1]; exact step t.tail _ _ hlen
      · simp only [e1, e2]; exact step _ _ _ (hX h1)
      · simp only [e1, e2]; exact step _ _ _ (hX h1)

theorem head?_take (l : GoString) (k : Nat) (hk : 1 ≤ k) : (l.take k).head? = l.head? := by
  cases l with
  | nil => simp
  | cons a l =>
    cases k with
    | zero => omega
    | succ k => simp

/-- On a rooted path the buffer keeps its leading separator. -/
theorem cleanLoop_rooted_head (fuel : Nat) :
    ∀ (rest out : GoString) (dotdot : Nat), out.head? = some '/' → 1 ≤ dotdot →
      dotdot ≤ out.length → (cleanLoop true fuel rest out dotdot).head? = some '/' := by
  induction fuel with
  | zero => intro rest out dotdot h _ _; simpa [cleanLoop] using h
  | succ f ih =>
    intro rest out dotdot hhead hd hlen
    cases rest with
    | nil => simpa [cleanLoop] using hhead
    | cons c t =>
      have hne : out ≠ [] := by
        intro h; simp [h] at hhead
      have happ : ∀ x : GoString, (out ++ x).head? = some '/' := by
        intro x
        cases out with
        | nil => exact absurd rfl hne
        | cons a o => simpa using hhead
      rw [cleanLoop]
      simp only [Bool.not_true, Bool.false_eq_true, if_false, Bool.true_and, Bool.false_and,
        Bool.or_false]
      split_ifs with h1 h2 h3 h4 h5
      · exact ih _ _ _ hhead hd hlen
      · exact ih _ _ _ hhead hd hlen
      · have hb := backtrackLoop_bounds out dotdot (out.length - 1) (by omega)
        apply ih
        · rw [head?_take _ _ (by omega)]; exact hhead
        · exact hd
        · rw [List.length_take]; omega
      · exact ih _ _ _ hhead hd hlen
      · apply ih
        · rw [List.append_assoc]; exact happ _
        · exact hd
        · simp only [List.length_append]; omega
      · apply ih
        · exact happ _
        · exact hd
        · simp only [List.length_append]; omega

theorem appendElement_length_ne_zero (rooted : Bool) (out name : GoString) (h : name ≠ []) :
    ¬ (appendElement rooted out name).length = 0 := by
  intro h0
  have := List.length_eq_zero.1 h0
  simp [appendElement, h] at this

theorem join_pair (dir name : GoString) (hdir : dir ≠ []) :
    Join [dir, name] = Clean (dir ++ '/' :: name) := by
  cases dir with
  | nil => exact absurd rfl hdir
  | cons c t => simp [Join, List.intercalate]

/-- An ordinary element joined to a non-empty directory lies directly in it. -/
theorem join_element (dir name : GoString) (hdir : dir ≠ []) (h : IsElement name) :
    InDirectory dir name := by
  have hname : name ≠ [] := h.1
  unfold InDirectory
  rw [join_pair dir name hdir]
  cases dir with
  | nil => exact absurd rfl hdir
  | cons c t =>
    by_cases hc : IsPathSeparator c = true
    · -- rooted
      have e1 : Clean (c :: t ++ '/' :: name)
          = appendElement true (cleanLoop true t.length t ['/'] 1) name := by
        have key : cleanLoop true (c :: (t ++ '/' :: name)).length (t ++ '/' :: name) ['/'] 1
            = appendElement true (cleanLoop true t.length t ['/'] 1) name :=
          cleanLoop_append_element true name h _ t ['/'] 1 (by simp)
        simp only [Clean, List.cons_append, hc, if_true]
        rw [key, if_neg (appendElement_length_ne_zero _ _ _ hname)]
      have e2 : Clean (c :: t) = cleanLoop true t.length t ['/'] 1 := by
        have hh := cleanLoop_rooted_head t.length t ['/'] 1 rfl le_rfl (by simp)
        simp only [Clean, hc, if_true]
        rw [cleanLoop_fuel true (c :: t).length t ['/'] 1 (by simp)]
        rw [if_neg]
        intro h0
        rw [List.length_eq_zero.1 h0] at hh
        simp at hh
      have hh := cleanLoop_rooted_head t.length t ['/'] 1 rfl le_rfl (by simp)
      rw [e1, e2]
      generalize cleanLoop true t.length t ['/'] 1 = o at hh
      by_cases h1 : o.length = 1
      · right; left
        have ho : o = ['/'] := by
          cases o with
          | nil => simp at h1
          | cons a o =>
            simp at hh h1
            simp [hh, h1]
        subst ho
        simp [appendElement]
      · right; right
        simp [appendElement, h1]
    · -- not rooted
      have e1 : Clean (c :: t ++ '/' :: name)
          = appendElement false (cleanLoop false (c :: t).length (c :: t) [] 0) name := by
        have key : cleanLoop false (c :: (t ++ '/' :: name)).length (c :: (t ++ '/' :: name)) [] 0
            = appendElement false (cleanLoop false (c :: t).length (c :: t) [] 0) name :=
          cleanLoop_append_element false name h _ (c :: t) [] 0 (by simp)
        simp only [Clean, List.cons_append, hc, if_false, Bool.false_eq_true]
        rw [key, if_neg (appendElement_length_ne_zero _ _ _ hname)]
      have e2 : Clean (c :: t) = if (cleanLoop false (c :: t).length (c :: t) [] 0).length = 0
          then ['.'] else cleanLoop false (c :: t).length (c :: t) [] 0 := by
        simp only [Clean, hc, if_false, Bool.false_eq_true]
      rw [e1, e2]
      generalize cleanLoop false (c :: t).length (c :: t) [] 0 = o
      by_cases h0 : o.length = 0
      · left
        have ho : o = [] := List.length_eq_zero.1 h0
        subst ho
        simp [appendElement]
      · right; right
        simp [appendElement, h0]

/-! ## Theorems on output naming -/

/-- C2: `filename("photo.jpg", "png") = "photo.png"`,
`filename("a.b.c.png", "pdf") = "a.b.c.pdf"` (only the final extension is
stripped) and `filename("noext", "gif") = "noext.gif"`. -/
theorem filename_examples :
    filename "photo.jpg".toList "png".toList = "photo.png".toList ∧
    filename "a.b.c.png".toList "pdf".toList = "a.b.c.pdf".toList ∧
    filename "noext".toList "gif".toList = "noext.gif".toList := by
  decide

/-- On a non-empty name without `'/'`, `filename` removes exactly the final
extension (the text from the last `'.'` on; nothing when there is no `'.'`)
and appends `'.'` and the target subtype. -/
theorem filename_eq_deriveOutputName (originalFilename targetSubType : GoString)
    (hne : originalFilename ≠ []) (hsep : '/' ∉ originalFilename) :
    filename originalFilename targetSubType
      = deriveOutputName originalFilename targetSubType := by
  have hall : ∀ c ∈ originalFilename, c ≠ '/' := fun c hc hh => hsep (hh ▸ hc)
  have hbase := base_of_no_sep originalFilename hne hall
  unfold filename deriveOutputName fileNameWithoutExtension
  rw [hbase]
  by_cases hdot : '.' ∈ originalFilename
  · obtain ⟨a, e, hae, he⟩ := exists_last_dot originalFilename hdot
    subst hae
    have he2 : ∀ c ∈ e, c ≠ '.' ∧ c ≠ '/' := fun c hc =>
      ⟨fun hh => he (hh ▸ hc), hall c (by simp [hc])⟩
    rw [ext_append_dot a e he2, stripFinalExtension_append_dot a e he, trimSuffix_append]
  · have he2 : ∀ c ∈ originalFilename, c ≠ '.' ∧ c ≠ '/' := fun c hc =>
      ⟨fun hh => hdot (hh ▸ hc), hall c hc⟩
    rw [ext_of_no_dot _ he2, trimSuffix_nil]
    simp [stripFinalExtension, hdot]

/-- The base of a path is never empty. -/
theorem base_ne_nil (path : GoString) : Base path ≠ [] := by
  unfold Base
  split
  · simp
  · simp only []
    split
    · simp
    · assumption

/-- C1: for every original filename that reaches `filename` (the file name of
an upload, which `mime/multipart` delivers as the `filepath.Base` of a
non-empty name) and every target subtype, `filename` is the original filename
with exactly its final extension removed (the text from the last `'.'` to the
end; nothing when the name has no `'.'`), followed by `'.'` and the target
subtype. -/
theorem filename_upload_eq_deriveOutputName (name targetSubType : GoString)
    (hname : name ≠ []) :
    filename (FileName name) targetSubType
      = deriveOutputName (FileName name) targetSubType := by
  have hfn : FileName name = Base name := by simp [FileName, hname]
  rw [hfn]
  by_cases hall : name ≠ [] ∧ ∀ c ∈ name, c = '/'
  · rw [base_all_sep name hall.1 hall.2]
    have hb : Base ['/'] = ['/'] := by decide
    have he : Ext ['/'] = [] := by decide
    have hs : stripFinalExtension ['/'] = ['/'] := by decide
    simp only [filename, fileNameWithoutExtension, deriveOutputName, hb, he, hs, trimSuffix_nil]
  · exact filename_eq_deriveOutputName (Base name) targetSubType (base_ne_nil name)
      (base_no_sep name hall)

/-- C1 at the upload name `d/a.b.c.png`, target `pdf`. -/
theorem filename_upload_eq_deriveOutputName_witness :
    "d/a.b.c.png".toList ≠ [] ∧
    FileName "d/a.b.c.png".toList = "a.b.c.png".toList ∧
    filename (FileName "d/a.b.c.png".toList) "pdf".toList
      = deriveOutputName (FileName "d/a.b.c.png".toList) "pdf".toList :=
  ⟨by decide, by decide,
    filename_upload_eq_deriveOutputName "d/a.b.c.png".toList "pdf".toList (by decide)⟩

/-- C10: for every directory prefix `p` that is empty or ends with `'/'`,
every stem `s` without `'/'`, every extension `e` without `'.'` and `'/'`, and
every target `t`, `filename(p ++ s ++ "." ++ e, t) = s ++ "." ++ t`. -/
theorem filename_dir_stem_ext (p s e t : GoString)
    (hp : p = [] ∨ ['/'] <:+ p) (hs : '/' ∉ s) (he : '.' ∉ e ∧ '/' ∉ e) :
    filename (p ++ s ++ ['.'] ++ e) t = s ++ ['.'] ++ t := by
  have he2 : ∀ c ∈ e, c ≠ '.' ∧ c ≠ '/' := fun c hc =>
    ⟨fun hh => he.1 (hh ▸ hc), fun hh => he.2 (hh ▸ hc)⟩
  have hx : ∀ c ∈ s ++ '.' :: e, c ≠ '/' := by
    intro c hc hh
    subst hh
    rcases List.mem_append.1 hc with h | h
    · exact hs h
    · rcases List.mem_cons.1 h with h | h
      · exact absurd h (by decide)
      · exact he.2 h
  have hxne : s ++ '.' :: e ≠ [] := by simp
  have hext : Ext (p ++ s ++ ['.'] ++ e) = '.' :: e := by
    have := ext_append_dot (p ++ s) e he2
    simpa using this
  have hbase : Base (p ++ s ++ ['.'] ++ e) = s ++ '.' :: e := by
    rcases hp with hp | ⟨q, hq⟩
    · subst hp
      simpa using base_of_no_sep (s ++ '.' :: e) hxne hx
    · subst hq
      simpa using base_append_sep_element q (s ++ '.' :: e) hxne hx
  unfold filename fileNameWithoutExtension
  rw [hext, hbase, trimSuffix_append]

/-- C10 at the name `up/load/a.b.jpg`, target `png`. -/
theorem filename_dir_stem_ext_witness :
    ("up/load/".toList = [] ∨ ['/'] <:+ "up/load/".toList) ∧ '/' ∉ "a.b".toList ∧
    ('.' ∉ "jpg".toList ∧ '/' ∉ "jpg".toList) ∧
    filename ("up/load/".toList ++ "a.b".toList ++ ['.'] ++ "jpg".toList) "png".toList
      = "a.b".toList ++ ['.'] ++ "png".toList :=
  ⟨Or.inr ⟨"up/load".toList, by decide⟩, by decide, by decide,
    filename_dir_stem_ext "up/load/".toList "a.b".toList "jpg".toList "png".toList
      (Or.inr ⟨"up/load".toList, by decide⟩) (by decide) (by decide)⟩

/-- First half of C9: for an extension without `'/'`, the derived name contains
a `'/'` exactly when the original name is non-empty and made of `'/'` only. -/
theorem filename_sep_iff (originalFilename extension : GoString) (hext : '/' ∉ extension) :
    '/' ∈ filename originalFilename extension
      ↔ (originalFilename ≠ [] ∧ ∀ c ∈ originalFilename, c = '/') := by
  constructor
  · intro hmem
    by_contra hcon
    have hb := base_no_sep originalFilename hcon
    unfold filename fileNameWithoutExtension at hmem
    rcases List.mem_append.1 hmem with h | h
    · rcases List.mem_append.1 h with h | h
      · exact hb ((trimSuffix_isPrefix _ _).subset h)
      · simp at h
    · exact hext h
  · rintro ⟨hne, hall⟩
    obtain ⟨q, hq⟩ := all_sep_eq_append originalFilename hne hall
    have hb := base_all_sep originalFilename hne hall
    have he : Ext originalFilename = [] := by rw [hq]; exact ext_append_sep q
    simp [filename, fileNameWithoutExtension, hb, he, trimSuffix_nil]

/-! ## Theorems on the handlers -/

/-- C7: in `handleUploadFile`, an error of `ConvertTo` is answered with
status 500 and the message `INTERNAL_ERROR`; a failure to create or to write
the output file is answered with status 500 and the message `CANT_WRITE_FILE`,
so the two responses differ. -/
theorem handleUploadFile_server_errors {Factory Converter : Type}
    (env : Env Factory Converter) (r : Request) :
    (∀ args, ⟨.ConvertTo, args, false⟩ ∈ (handleUploadFile env r).trace →
      (handleUploadFile env r).w = ⟨some 500, "INTERNAL_ERROR".toList⟩) ∧
    (∀ args, (⟨.Create, args, false⟩ ∈ (handleUploadFile env r).trace ∨
        ⟨.Write, args, false⟩ ∈ (handleUploadFile env r).trace) →
      (handleUploadFile env r).w = ⟨some 500, "CANT_WRITE_FILE".toList⟩) ∧
    (⟨some 500, "INTERNAL_ERROR".toList⟩ : ResponseWriter)
      ≠ ⟨some 500, "CANT_WRITE_FILE".toList⟩ := by
  refine ⟨?_, ?_, by decide⟩
  · intro args hc
    unfold handleUploadFile at hc ⊢
    simp only [] at hc ⊢
    repeat' split at hc
    all_goals simp_all [State.call, State.renderError, State.init, renderError,
      ResponseWriter.WriteHeader, ResponseWriter.Write, StatusInternalServerError]
  · intro args hc
    unfold handleUploadFile at hc ⊢
    simp only [] at hc ⊢
    repeat' split at hc
    all_goals simp_all [State.call, State.renderError, State.init, renderError,
      ResponseWriter.WriteHeader, ResponseWriter.Write, StatusInternalServerError]

/-- C7 on an upload whose conversion fails, and on one whose file cannot be created. -/
theorem handleUploadFile_server_errors_witness :
    (handleUploadFile { photoEnv with ConvertTo := fun _ _ _ _ => .error "codec" }
        photoRequest).w = ⟨some 500, "INTERNAL_ERROR".toList⟩ ∧
    (handleUploadFile { photoEnv with Create := fun _ => .error "read-only" }
        photoRequest).w = ⟨some 500, "CANT_WRITE_FILE".toList⟩ :=
  ⟨(handleUploadFile_server_errors _ photoRequest).1 ["Image".toList, "png".toList]
      (by decide),
   (handleUploadFile_server_errors _ photoRequest).2.1 ["/tmp/photo.png".toList]
      (Or.inl (by decide))⟩

/-- C4: the calls of `handleUploadFile` run in the fixed order classify
(`TypeAndSupType`), build factory (`BuildFactory`), build converter (`NewFile`),
convert (`ConvertTo`), name (`filename`); when one of these stages returns an
error, the response is an error (400, for the conversion 500), the failed call
is the last call of the run, and no output file is created.  The naming stage
returns no error. -/
theorem handleUploadFile_stage_failure {Factory Converter : Type}
    (env : Env Factory Converter) (r : Request) :
    (handleUploadFile env r).trace.map Call.site <+: uploadPipeline ∧
    (∀ args, ⟨.filename, args, false⟩ ∉ (handleUploadFile env r).trace) ∧
    (∀ site ∈ [Site.TypeAndSupType, Site.BuildFactory, Site.NewFile, Site.ConvertTo],
      ∀ args, ⟨site, args, false⟩ ∈ (handleUploadFile env r).trace →
        (handleUploadFile env r).w.status = some (if site = .ConvertTo then 500 else 400) ∧
        (handleUploadFile env r).trace.getLast? = some ⟨site, args, false⟩ ∧
        (handleUploadFile env r).files = [] ∧
        ∀ a ok, ⟨.Create, a, ok⟩ ∉ (handleUploadFile env r).trace) := by
  refine ⟨?_, ?_, ?_⟩
  · unfold handleUploadFile
    simp only []
    repeat' split
    all_goals simp [State.call, State.renderError, State.init, uploadPipeline]
  · intro args hc
    unfold handleUploadFile at hc
    simp only [] at hc
    repeat' split at hc
    all_goals simp_all [State.call, State.renderError, State.init]
  · intro site hsite args hc
    simp only [List.mem_cons, List.mem_singleton, List.not_mem_nil, or_false] at hsite
    unfold handleUploadFile at hc ⊢
    simp only [] at hc ⊢
    repeat' split at hc
    all_goals simp_all [State.call, State.renderError, State.init, renderError,
      ResponseWriter.WriteHeader, ResponseWriter.Write, StatusInternalServerError,
      StatusBadRequest]

/-- C4 on an upload for which `NewFile` returns an error. -/
theorem handleUploadFile_stage_failure_witness :
    (handleUploadFile { photoEnv with NewFile := fun _ _ => .error "unsupported" }
        photoRequest).w.status = some 400 ∧
    (handleUploadFile { photoEnv with NewFile := fun _ _ => .error "unsupported" }
        photoRequest).trace.getLast? = some ⟨.NewFile, ["jpeg".toList], false⟩ ∧
    (handleUploadFile { photoEnv with NewFile := fun _ _ => .error "unsupported" }
        photoRequest).files = [] :=
  ⟨((handleUploadFile_stage_failure _ photoRequest).2.2 .NewFile (by decide)
      ["jpeg".toList] (by decide)).1,
   ((handleUploadFile_stage_failure _ photoRequest).2.2 .NewFile (by decide)
      ["jpeg".toList] (by decide)).2.1,
   ((handleUploadFile_stage_failure _ photoRequest).2.2 .NewFile (by decide)
      ["jpeg".toList] (by decide)).2.2.1⟩

/-- C5, as stated, fails: when the converted bytes cannot be classified the
response is an error (500) although the output file was created and written in
full; when the write fails the response is an error and the created file
stays. -/
theorem handleUploadFile_error_leaves_file :
    (handleUploadFile photoEnv photoRequest).w = ⟨some 500, "INTERNAL_ERROR".toList⟩ ∧
    (handleUploadFile photoEnv photoRequest).files = [("/tmp/photo.png".toList, [7, 7])] ∧
    (handleUploadFile { photoEnv with Write := fun _ _ => (1, some "disk full") }
        photoRequest).w = ⟨some 500, "CANT_WRITE_FILE".toList⟩ ∧
    (handleUploadFile { photoEnv with Write := fun _ _ => (1, some "disk full") }
        photoRequest).files = [("/tmp/photo.png".toList, [7])] := by
  decide

/-- C5, amended: when the failing step of `handleUploadFile` is one up to and
including `os.Create` (form parsing, reading, classification, factory,
converter construction, conversion, file creation), the response is an error
and no output file has been created or written; when the failing step comes
after `os.Create` succeeded (write, template parsing, classification of the
converted bytes, template execution), the created file is left behind. -/
theorem handleUploadFile_error_files {Factory Converter : Type}
    (env : Env Factory Converter) (r : Request) :
    (∀ site ∈ [Site.FormFile, Site.ReadAll, Site.TypeAndSupType, Site.BuildFactory,
        Site.NewFile, Site.ConvertTo, Site.Create],
      ∀ args, ⟨site, args, false⟩ ∈ (handleUploadFile env r).trace →
        ((handleUploadFile env r).w.status = some 400 ∨
          (handleUploadFile env r).w.status = some 500) ∧
        (handleUploadFile env r).files = []) ∧
    (∀ site ∈ [Site.Write, Site.ParseFS, Site.TypeAndSupTypeConverted, Site.ExecuteTemplate],
      ∀ args, ⟨site, args, false⟩ ∈ (handleUploadFile env r).trace →
        ∃ path content, (handleUploadFile env r).files = [(path, content)] ∧
          ⟨.Create, [path], true⟩ ∈ (handleUploadFile env r).trace) := by
  refine ⟨?_, ?_⟩
  · intro site hsite args hc
    simp only [List.mem_cons, List.mem_singleton, List.not_mem_nil, or_false] at hsite
    unfold handleUploadFile at hc ⊢
    simp only [] at hc ⊢
    repeat' split at hc
    all_goals simp_all [State.call, State.renderError, State.init, renderError,
      ResponseWriter.WriteHeader, ResponseWriter.Write, StatusInternalServerError,
      StatusBadRequest]
  · intro site hsite args hc
    simp only [List.mem_cons, List.mem_singleton, List.not_mem_nil, or_false] at hsite
    unfold handleUploadFile at hc ⊢
    simp only [] at hc ⊢
    repeat' split at hc
    all_goals simp_all [State.call, State.renderError, State.init]

/-- The amended C5 on an upload whose output file cannot be created. -/
theorem handleUploadFile_error_files_witness :
    ((handleUploadFile { photoEnv with Create := fun _ => .error "read-only" }
        photoRequest).w.status = some 400 ∨
      (handleUploadFile { photoEnv with Create := fun _ => .error "read-only" }
        photoRequest).w.status = some 500) ∧
    (handleUploadFile { photoEnv with Create := fun _ => .error "read-only" }
        photoRequest).files = [] :=
  (handleUploadFile_error_files _ photoRequest).1 .Create (by decide)
    ["/tmp/photo.png".toList] (by decide)


/-- C3: for every upload whose conversion succeeds, the output is named
`filename(originalFilename, "zip")` when the classified source file type is
`application`, whatever target was requested, and
`filename(originalFilename, requestedTargetSubType)` otherwise. -/
theorem handleUploadFile_output_name {Factory Converter : Type}
    (env : Env Factory Converter) (r : Request) (file : File) (fileHeader : FileHeader)
    (fileBytes convertedFile : Bytes) (fileType subType : GoString) (fileFactory : Factory)
    (f : Converter)
    (hform : r.FormFile uploadFileFormField = .ok (file, fileHeader))
    (hread : file.ReadAll = .ok fileBytes)
    (hclass : env.TypeAndSupType (env.Detect fileBytes) = .ok (fileType, subType))
    (hfactory : env.BuildFactory fileType fileHeader.Filename = .ok fileFactory)
    (hnew : env.NewFile fileFactory subType = .ok f)
    (hconv : env.ConvertTo f (env.Title (env.SupportedFileTypes (r.FormValue "input_format".toList)))
      (r.FormValue "input_format".toList) fileBytes = .ok convertedFile) :
    (fileType = "application".toList →
      OutputNamed env r (filename fileHeader.Filename "zip".toList)) ∧
    (fileType ≠ "application".toList →
      OutputNamed env r (filename fileHeader.Filename (r.FormValue "input_format".toList))) := by
  constructor
  · intro hty
    unfold OutputNamed handleUploadFile
    simp only [hform, hread, hclass, hfactory, hnew, hconv]
    refine ⟨?_, ?_, ?_⟩
    all_goals repeat' split
    all_goals simp_all [State.call, State.renderError, State.init]
  · intro hty
    unfold OutputNamed handleUploadFile
    simp only [hform, hread, hclass, hfactory, hnew, hconv]
    refine ⟨?_, ?_, ?_⟩
    all_goals repeat' split
    all_goals simp_all [State.call, State.renderError, State.init]

/-- C3 on an upload classified as `application/pdf`, requested target `png`: the output is `photo.zip`. -/
theorem handleUploadFile_output_name_witness :
    OutputNamed { photoEnv with
        TypeAndSupType := fun _ => .ok ("application".toList, "pdf".toList) }
      photoRequest "photo.zip".toList :=
  (handleUploadFile_output_name
    { photoEnv with TypeAndSupType := fun _ => .ok ("application".toList, "pdf".toList) }
    photoRequest ⟨.ok [255, 216, 255]⟩ ⟨"photo.jpg".toList⟩ [255, 216, 255] [7, 7]
    "application".toList "pdf".toList () () rfl rfl rfl rfl rfl rfl).1 rfl

/-- C6 fails in `handleFileFormat`: when `NewFile` returns an error this
handler answers 500 `INTERNAL_ERROR`, where `handleUploadFile` answers the
same error with 400 `INVALID_FILE`. -/
theorem handleFileFormat_newFile_error :
    (handleFileFormat { photoEnv with NewFile := fun _ _ => .error "unsupported" }
        photoRequest).w = ⟨some 500, "INTERNAL_ERROR".toList⟩ ∧
    (handleFileFormat { photoEnv with NewFile := fun _ _ => .error "unsupported" }
        photoRequest).trace.getLast? = some ⟨.NewFile, ["jpeg".toList], false⟩ ∧
    (handleUploadFile { photoEnv with NewFile := fun _ _ => .error "unsupported" }
        photoRequest).w = ⟨some 400, "INVALID_FILE".toList⟩ := by
  decide

/-- The part of C6 that holds: both handlers answer an error of
`TypeAndSupType` or of `BuildFactory` with 400 `INVALID_FILE`, and
`handleUploadFile` does so for an error of `NewFile` too; `handleFileFormat`
answers an error of `NewFile` with 500 `INTERNAL_ERROR`. -/
theorem handlers_dispatch_errors {Factory Converter : Type}
    (env : Env Factory Converter) (r : Request) :
    (∀ site ∈ [Site.TypeAndSupType, Site.BuildFactory, Site.NewFile],
      ∀ args, ⟨site, args, false⟩ ∈ (handleUploadFile env r).trace →
        (handleUploadFile env r).w = ⟨some 400, "INVALID_FILE".toList⟩) ∧
    (∀ site ∈ [Site.TypeAndSupType, Site.BuildFactory],
      ∀ args, ⟨site, args, false⟩ ∈ (handleFileFormat env r).trace →
        (handleFileFormat env r).w = ⟨some 400, "INVALID_FILE".toList⟩) ∧
    (∀ args, ⟨.NewFile, args, false⟩ ∈ (handleFileFormat env r).trace →
        (handleFileFormat env r).w = ⟨some 500, "INTERNAL_ERROR".toList⟩) := by
  refine ⟨?_, ?_, ?_⟩
  · intro site hsite args hc
    simp only [List.mem_cons, List.mem_singleton, List.not_mem_nil, or_false] at hsite
    unfold handleUploadFile at hc ⊢
    simp only [] at hc ⊢
    repeat' split at hc
    all_goals simp_all [State.call, State.renderError, State.init, renderError,
      ResponseWriter.WriteHeader, ResponseWriter.Write, StatusBadRequest]
  · intro site hsite args hc
    simp only [List.mem_cons, List.mem_singleton, List.not_mem_nil, or_false] at hsite
    unfold handleFileFormat at hc ⊢
    simp only [] at hc ⊢
    repeat' split at hc
    all_goals simp_all [State.call, State.renderError, State.init, renderError,
      ResponseWriter.WriteHeader, ResponseWriter.Write, StatusBadRequest]
  · intro args hc
    unfold handleFileFormat at hc ⊢
    simp only [] at hc ⊢
    repeat' split at hc
    all_goals simp_all [State.call, State.renderError, State.init, renderError,
      ResponseWriter.WriteHeader, ResponseWriter.Write, StatusInternalServerError]

/-- C8: for every valid upload and every requested target subtype that is
absent from the `SupportedFormats()` of the converter of the file,
`handleUploadFile` answers with an error (500 `INTERNAL_ERROR`) and creates no
output file, given that `ConvertTo` rejects such targets as the specification
requires. -/
theorem handleUploadFile_illegal_target {Factory Converter : Type}
    (env : Env Factory Converter) (r : Request) (file : File) (fileHeader : FileHeader)
    (fileBytes : Bytes) (fileType subType : GoString) (fileFactory : Factory) (f : Converter)
    (hspec : ConvertToRejectsIllegalTargets env)
    (hform : r.FormFile uploadFileFormField = .ok (file, fileHeader))
    (hread : file.ReadAll = .ok fileBytes)
    (hclass : env.TypeAndSupType (env.Detect fileBytes) = .ok (fileType, subType))
    (hfactory : env.BuildFactory fileType fileHeader.Filename = .ok fileFactory)
    (hnew : env.NewFile fileFactory subType = .ok f)
    (htarget : r.FormValue "input_format".toList ∉ (env.SupportedFormats f).map Prod.fst) :
    (handleUploadFile env r).w = ⟨some 500, "INTERNAL_ERROR".toList⟩ ∧
    (handleUploadFile env r).files = [] ∧
    ∀ a ok, ⟨.Create, a, ok⟩ ∉ (handleUploadFile env r).trace := by
  obtain ⟨e, he⟩ := hspec f (env.Title (env.SupportedFileTypes (r.FormValue "input_format".toList)))
    (r.FormValue "input_format".toList) fileBytes htarget
  unfold handleUploadFile
  simp only [hform, hread, hclass, hfactory, hnew, he]
  simp [State.call, State.renderError, State.init, renderError,
    ResponseWriter.WriteHeader, ResponseWriter.Write, StatusInternalServerError]

/-- The converter of `pngOnlyEnv` rejects every target but `png`. -/
theorem pngOnlyEnv_rejects_illegal_targets : ConvertToRejectsIllegalTargets pngOnlyEnv := by
  intro f ty sub bytes hsub
  have h : sub ≠ "png".toList := by
    intro h
    apply hsub
    simp [pngOnlyEnv, photoEnv, h]
  exact ⟨"file sub-type not supported", if_neg h⟩

/-- C8 on an upload with target `gif`, which the converter does not list. -/
theorem handleUploadFile_illegal_target_witness :
    (handleUploadFile pngOnlyEnv gifRequest).w = ⟨some 500, "INTERNAL_ERROR".toList⟩ ∧
    (handleUploadFile pngOnlyEnv gifRequest).files = [] :=
  ⟨(handleUploadFile_illegal_target pngOnlyEnv gifRequest ⟨.ok [255, 216, 255]⟩
      ⟨"photo.jpg".toList⟩ [255, 216, 255] "image".toList "jpeg".toList () ()
      pngOnlyEnv_rejects_illegal_targets rfl rfl rfl rfl rfl (by decide)).1,
   (handleUploadFile_illegal_target pngOnlyEnv gifRequest ⟨.ok [255, 216, 255]⟩
      ⟨"photo.jpg".toList⟩ [255, 216, 255] "image".toList "jpeg".toList () ()
      pngOnlyEnv_rejects_illegal_targets rfl rfl rfl rfl rfl (by decide)).2.1⟩

/-! ## The derived name as a path element -/

theorem uploadPath_ne_nil {Factory Converter : Type} (env : Env Factory Converter) :
    uploadPath env ≠ [] := by
  unfold uploadPath
  split
  · decide
  · assumption

/-- C9, as stated, fails: for the original name `..` and the empty extension
the derived name is `..`, free of `'/'`, and joined to the upload directory
`/tmp` it names `/`, outside the upload directory. -/
theorem filename_dotdot_leaves_directory :
    '/' ∉ "".toList ∧
    '/' ∉ "..".toList ∧
    filename "..".toList "".toList = "..".toList ∧
    '/' ∉ filename "..".toList "".toList ∧
    uploadPath photoEnv = "/tmp".toList ∧
    Join [uploadPath photoEnv, filename "..".toList "".toList] = "/".toList ∧
    ¬ InDirectory (uploadPath photoEnv) (filename "..".toList "".toList) := by
  unfold InDirectory
  decide

/-- C9, amended: for every original filename and every extension without
`'/'`, the derived name contains a `'/'` exactly when the original name is
non-empty and made of `'/'` only; for every other filename the derived name
contains no `'/'` and, when it is neither `.` nor `..`, joined to the upload
directory it is an entry directly in that directory.  The derived name is
neither `.` nor `..` whenever the extension has a character other than `'.'`. -/
theorem filename_single_element {Factory Converter : Type} (env : Env Factory Converter)
    (originalFilename extension : GoString) (hext : '/' ∉ extension) :
    ('/' ∈ filename originalFilename extension
      ↔ (originalFilename ≠ [] ∧ ∀ c ∈ originalFilename, c = '/')) ∧
    (¬ (originalFilename ≠ [] ∧ ∀ c ∈ originalFilename, c = '/') →
      '/' ∉ filename originalFilename extension ∧
      (filename originalFilename extension ≠ ['.'] →
        filename originalFilename extension ≠ ['.', '.'] →
        InDirectory (uploadPath env) (filename originalFilename extension))) ∧
    ((∃ c ∈ extension, c ≠ '.') →
      filename originalFilename extension ≠ ['.'] ∧
      filename originalFilename extension ≠ ['.', '.']) := by
  have hiff := filename_sep_iff originalFilename extension hext
  refine ⟨hiff, ?_, ?_⟩
  · intro hcon
    have hno : '/' ∉ filename originalFilename extension := fun hm => hcon (hiff.1 hm)
    refine ⟨hno, fun hdot hdd => ?_⟩
    apply join_element _ _ (uploadPath_ne_nil env)
    refine ⟨?_, fun c hc hh => hno (hh ▸ hc), hdot, hdd⟩
    simp [filename]
  · rintro ⟨c, hc, hne⟩
    have hmem : c ∈ filename originalFilename extension := by
      simp [filename, hc]
    constructor
    · intro h
      rw [h] at hmem
      simp at hmem
      exact hne hmem
    · intro h
      rw [h] at hmem
      simp at hmem
      exact hne hmem

/-- The amended C9 at `photo.jpg`, extension `png`. -/
theorem filename_single_element_witness :
    '/' ∉ "png".toList ∧
    InDirectory (uploadPath photoEnv) (filename "photo.jpg".toList "png".toList) :=
  ⟨by decide,
    ((filename_single_element photoEnv "photo.jpg".toList "png".toList (by decide)).2.1
      (by decide)).2 (by decide) (by decide)⟩

end Morphos
